import Mathlib

/-!
Shallow embedding of the semantic-search notebook
(`compute_doc_embedding`, `vectorize_posts`, and the top-K query loop
built on `cosine_similarity` / `np.argsort`), with theorems checking the
specification's claims against it.

Modelling conventions:
* floating-point arithmetic is idealised over `ℚ`;
* a numpy array is a `List ℚ`, a matrix a `List Vec` (rows);
* a Python dict is an association list with insert-or-overwrite update,
  preserving insertion order, exactly as CPython dicts do;
* `np.argsort` is modelled as the stable ascending argsort (ties keep the
  lower index first), i.e. numpy's `kind='stable'` semantics — the
  reference's default quicksort order over ties is unspecified, and the
  stable order is what numpy's insertion sort produces on small inputs;
* a Python run that ends in an uncaught exception is `none`.
-/

namespace SemSearch

abbrev Token := String

abbrev Vec := List ℚ

/-- `en_embeddings` : Python dict from token to embedding vector. -/
abbrev EmbStore := List (Token × Vec)

/-- The hard-coded embedding dimension `np.zeros(300)` of the notebook. -/
def D : Nat := 300

/-- `np.zeros(n)`. -/
def zeros (n : Nat) : Vec := List.replicate n 0

/-- Python `d.get(t, dflt)`. -/
def storeGet (emb : EmbStore) (t : Token) (dflt : Vec) : Vec :=
  match emb.find? (fun p => p.1 == t) with
  | some p => p.2
  | none => dflt

/-- Elementwise `+` of two numpy vectors. -/
def vadd (a b : Vec) : Vec := List.zipWith (· + ·) a b

/-- `np.divide(a, c)`, elementwise. -/
def vdiv (a : Vec) (c : ℚ) : Vec := a.map (· / c)

/-- `compute_doc_embedding(post)` from the notebook:

    doc_embedding = np.zeros(300)
    for token in post:
        doc_embedding += en_embeddings.get(token, np.zeros(300))
        doc_embedding = np.divide(doc_embedding, len(post))
    return doc_embedding

Note the divisor is `len(post)` — the total token count — at every step. -/
def compute_doc_embedding (en_embeddings : EmbStore) (post : List Token) : Vec :=
  post.foldl
    (fun doc_embedding token =>
      vdiv (vadd doc_embedding (storeGet en_embeddings token (zeros D)))
        ((post.length : ℚ)))
    (zeros D)

/-- Python dict assignment `d[k] = v`: overwrite in place if the key is
present, else append at the end (CPython insertion-order semantics). -/
def dictSet {κ α : Type} [BEq κ] (d : List (κ × α)) (k : κ) (v : α) :
    List (κ × α) :=
  if d.any (fun p => p.1 == k) then
    d.map (fun p => if p.1 == k then (k, v) else p)
  else d ++ [(k, v)]

/-- Python dict lookup `d[k]` (as an option). -/
def dictGet? {κ α : Type} [BEq κ] (d : List (κ × α)) (k : κ) : Option α :=
  (d.find? (fun p => p.1 == k)).map (fun p => p.2)

/-- The loop body of `vectorize_posts`: state is the loop counter `i`,
`document_vec_l`, `ind2Doc_dict`, and `document_vec_matrix` — the latter an
`Option` because the Python local is only bound inside the loop body
(`document_vec_matrix = np.vstack(document_vec_l)`), so it is unbound when
the loop never runs. -/
def vectorizeGo (en_embeddings : EmbStore) :
    List (List Token) → Nat → List Vec → List (Nat × Vec) →
      Option (List Vec) → Option (List Vec) × List (Nat × Vec)
  | [], _, _, dict, mat => (mat, dict)
  | post :: rest, i, vecl, dict, _ =>
    let d := compute_doc_embedding en_embeddings post
    vectorizeGo en_embeddings rest (i + 1) (vecl ++ [d])
      (dictSet dict i d) (some (vecl ++ [d]))

/-- `vectorize_posts(posts, en_embeddings)` from the notebook; returns
`(document_vec_matrix, ind2Doc_dict)`, or `none` when the run dies with
`UnboundLocalError` (empty `posts`: the `return` references
`document_vec_matrix`, which was never assigned). -/
def vectorize_posts (posts : List (List Token)) (en_embeddings : EmbStore) :
    Option (List Vec × List (Nat × Vec)) :=
  match vectorizeGo en_embeddings posts 0 [] [] none with
  | (none, _) => none
  | (some mat, dict) => some (mat, dict)

/-- `np.dot` of two vectors. -/
def dot (a b : Vec) : ℚ := (List.zipWith (· * ·) a b).sum

/-- Modelled from the spec: `cosine_similarity` is defined in `utils.py`,
which is not among the sources; the spec gives
`score = dot(q, r) / (‖q‖ · ‖r‖)`, with `score = 0` when either norm is
exactly zero. A norm is zero exactly when the self-dot-product is zero, and
the square root is kept abstract as a parameter `sqrtQ` (only score order
and equality matter to the claims below). Applied row-wise to the corpus
matrix, as the notebook's `cosine_similarity(posts_vec_matrix, q)`. -/
def cosine_similarity (sqrtQ : ℚ → ℚ) (matrix : List Vec) (q : Vec) :
    List ℚ :=
  matrix.map (fun r =>
    if dot q q = 0 ∨ dot r r = 0 then 0
    else dot q r / (sqrtQ (dot q q) * sqrtQ (dot r r)))

/-- Score of row `i` in a score array (`cosine_score[idx]`). -/
def scoreAt (scores : List ℚ) (i : Nat) : ℚ := scores.getD i 0

/-- The comparison `np.argsort` sorts indices by: ascending score, ties by
lower original index (stable argsort). -/
def argsortLe (scores : List ℚ) (i j : Nat) : Prop :=
  scoreAt scores i < scoreAt scores j ∨
    (scoreAt scores i = scoreAt scores j ∧ i ≤ j)

instance (scores : List ℚ) : DecidableRel (argsortLe scores) := fun _i _j =>
  inferInstanceAs (Decidable (_ ∨ _))

/-- `np.argsort(scores)` (stable ascending, see module docstring). -/
def argsort (scores : List ℚ) : List Nat :=
  List.insertionSort (argsortLe scores) (List.range scores.length)

/-- Python slice `l[s:]` for an arbitrary integer start `s`. -/
def pySliceFrom {α : Type} (l : List α) (s : Int) : List α :=
  if s < 0 then l.drop (l.length - (-s).toNat) else l.drop s.toNat

/-- `top_indices = np.argsort(cosine_score)[-k:][::-1]` from the query
loop (`k` is `configurations["top-k"]`). -/
def top_indices (scores : List ℚ) (k : Int) : List Nat :=
  (pySliceFrom (argsort scores) (-k)).reverse

/-- One record of the result list:
`{'post ID': str(idx), 'post text': ls_posts[idx], 'sim score': str(...)}`;
the text is an `Option` since `ls_posts[idx]` can raise `IndexError`. -/
def topPostsFor (sqrtQ : ℚ → ℚ) (en_embeddings : EmbStore)
    (matrix : List Vec) (ls_posts : List String) (k : Int)
    (query : List Token) : List (Nat × Option String × ℚ) :=
  let query_embedding := compute_doc_embedding en_embeddings query
  let cosine_score := cosine_similarity sqrtQ matrix query_embedding
  (top_indices cosine_score k).map
    (fun idx => (idx, ls_posts.get? idx, scoreAt cosine_score idx))

/-- One iteration of the query loop: `query_str = ' '.join(query)`, then
the two dict assignments `query_posts_similarities[query_str] = []` and
`query_posts_similarities[query_str] = top_posts`. -/
def queryStep (sqrtQ : ℚ → ℚ) (en_embeddings : EmbStore) (matrix : List Vec)
    (ls_posts : List String) (k : Int)
    (acc : List (String × List (Nat × Option String × ℚ)))
    (query : List Token) : List (String × List (Nat × Option String × ℚ)) :=
  let query_str := String.intercalate " " query
  let acc1 := dictSet acc query_str []
  dictSet acc1 query_str (topPostsFor sqrtQ en_embeddings matrix ls_posts k query)

/-- The notebook's query loop building `query_posts_similarities`, a fold
of `queryStep` over the tokenized queries starting from the empty dict. -/
def query_posts_similarities (sqrtQ : ℚ → ℚ) (en_embeddings : EmbStore)
    (matrix : List Vec) (ls_posts : List String) (k : Int)
    (queries : List (List Token)) :
    List (String × List (Nat × Option String × ℚ)) :=
  queries.foldl (queryStep sqrtQ en_embeddings matrix ls_posts k) []

/-- The encoder exactly as claim C1 words it: iterate in document order,
add each present token's embedding to the running sum, and after each
addition divide the running sum by the number of tokens processed so far. -/
def encode_claimed (emb : EmbStore) (post : List Token) : Vec :=
  (post.foldl
    (fun st token =>
      (vdiv (vadd st.1 (storeGet emb token (zeros D)))
        (((st.2 + 1 : Nat) : ℚ)), st.2 + 1))
    ((zeros D, 0) : Vec × Nat)).1

/-- Closed form of what `compute_doc_embedding` actually computes on a
document of total length `L`: the token at distance `m` from the end of the
list contributes its embedding divided by `L ^ (m + 1)`. -/
def decayedSumFrom (emb : EmbStore) (L : ℚ) : List Token → Vec
  | [] => zeros D
  | t :: ts =>
    vadd (vdiv (storeGet emb t (zeros D)) (L ^ (ts.length + 1)))
      (decayedSumFrom emb L ts)

/-! ### Vector algebra lemmas -/

theorem vadd_replicate (n : Nat) (a b : ℚ) :
    vadd (List.replicate n a) (List.replicate n b) = List.replicate n (a + b) := by
  induction n with
  | zero => rfl
  | succ n ih =>
    simp only [List.replicate_succ, vadd, List.zipWith_cons_cons] at *
    simp [ih]

theorem vdiv_replicate (n : Nat) (a c : ℚ) :
    vdiv (List.replicate n a) c = List.replicate n (a / c) := by
  simp [vdiv]

theorem zeros_length (n : Nat) : (zeros n).length = n := by
  simp [zeros]

theorem vadd_length (a b : Vec) : (vadd a b).length = min a.length b.length := by
  simp [vadd]

theorem vdiv_length (a : Vec) (c : ℚ) : (vdiv a c).length = a.length := by
  simp [vdiv]

theorem vdiv_zeros (n : Nat) (c : ℚ) : vdiv (zeros n) c = zeros n := by
  simp [vdiv, zeros]

theorem vdiv_one (v : Vec) : vdiv v 1 = v := by
  simp [vdiv]

theorem vadd_zeros_left : ∀ v : Vec, vadd (zeros v.length) v = v
  | [] => rfl
  | x :: xs => by
    have h : zeros (x :: xs).length = 0 :: zeros xs.length := by
      simp [zeros, List.replicate_succ]
    rw [h]
    show (0 + x) :: vadd (zeros xs.length) xs = x :: xs
    rw [zero_add, vadd_zeros_left xs]

theorem vadd_zeros_right : ∀ v : Vec, vadd v (zeros v.length) = v
  | [] => rfl
  | x :: xs => by
    have h : zeros (x :: xs).length = 0 :: zeros xs.length := by
      simp [zeros, List.replicate_succ]
    rw [h]
    show (x + 0) :: vadd xs (zeros xs.length) = x :: xs
    rw [add_zero, vadd_zeros_right xs]

theorem vadd_zeros_zeros (n : Nat) : vadd (zeros n) (zeros n) = zeros n := by
  simp [zeros, vadd_replicate]

theorem vdiv_vadd : ∀ (a b : Vec) (c : ℚ),
    vdiv (vadd a b) c = vadd (vdiv a c) (vdiv b c)
  | [], _, _ => rfl
  | _ :: _, [], _ => rfl
  | a :: as, b :: bs, c => by
    show ((a + b) / c) :: vdiv (vadd as bs) c
      = (a / c + b / c) :: vadd (vdiv as c) (vdiv bs c)
    rw [add_div, vdiv_vadd as bs c]

theorem vdiv_vdiv (a : Vec) (c d : ℚ) : vdiv (vdiv a c) d = vdiv a (c * d) := by
  simp [vdiv, List.map_map, Function.comp_def, div_div]

theorem vadd_assoc : ∀ (a b c : Vec), vadd (vadd a b) c = vadd a (vadd b c)
  | [], _, _ => rfl
  | _ :: _, [], _ => rfl
  | _ :: _, _ :: _, [] => rfl
  | a :: as, b :: bs, c :: cs => by
    show (a + b + c) :: vadd (vadd as bs) cs = (a + (b + c)) :: vadd as (vadd bs cs)
    rw [add_assoc, vadd_assoc as bs cs]

theorem storeGet_length (emb : EmbStore) (hemb : ∀ p ∈ emb, (p.2 : Vec).length = D)
    (t : Token) : (storeGet emb t (zeros D)).length = D := by
  unfold storeGet
  cases h : emb.find? (fun p => p.1 == t) with
  | none => exact zeros_length D
  | some p => exact hemb p (List.mem_of_find?_eq_some h)

theorem decayedSumFrom_length (emb : EmbStore)
    (hemb : ∀ p ∈ emb, (p.2 : Vec).length = D) (L : ℚ) :
    ∀ ts : List Token, (decayedSumFrom emb L ts).length = D
  | [] => zeros_length D
  | t :: ts => by
    simp [decayedSumFrom, vadd_length, vdiv_length, storeGet_length emb hemb,
      decayedSumFrom_length emb hemb L ts]

/-- What the running-sum loop of `compute_doc_embedding` computes, in closed
form, when the divisor `L` is held fixed across iterations. -/
theorem foldl_div_closed (emb : EmbStore)
    (hemb : ∀ p ∈ emb, (p.2 : Vec).length = D) (L : ℚ) :
    ∀ (ts : List Token) (acc : Vec), acc.length = D →
      ts.foldl (fun a t => vdiv (vadd a (storeGet emb t (zeros D))) L) acc
        = vadd (vdiv acc (L ^ ts.length)) (decayedSumFrom emb L ts)
  | [], acc, hacc => by
    show acc = vadd (vdiv acc (L ^ (0 : Nat))) (decayedSumFrom emb L [])
    rw [pow_zero, vdiv_one]
    show acc = vadd acc (zeros D)
    rw [← hacc, vadd_zeros_right]
  | t :: ts, acc, hacc => by
    simp only [List.foldl_cons]
    rw [foldl_div_closed emb hemb L ts _
      (by simp [vdiv_length, vadd_length, hacc, storeGet_length emb hemb])]
    rw [vdiv_vdiv, vdiv_vadd, vadd_assoc]
    have hM : L * L ^ ts.length = L ^ (ts.length + 1) := (pow_succ' L ts.length).symm
    rw [hM]
    rfl

/-! ### Claim C5: the empty document -/

/-- Claim C5: for every embedding store, encoding the empty document does
not raise a division-by-zero and returns the zero vector of dimension `D`
(the loop body never runs, so the initial `np.zeros(300)` is returned). -/
theorem encode_empty_doc (en_embeddings : EmbStore) :
    compute_doc_embedding en_embeddings [] = zeros D := rfl

/-! ### Claim C6: unknown tokens -/

theorem storeGet_absent (emb : EmbStore) (t : Token)
    (h : emb.find? (fun p => p.1 == t) = none) :
    storeGet emb t (zeros D) = zeros D := by
  unfold storeGet
  rw [h]

theorem foldl_unknown (emb : EmbStore) (c : ℚ) :
    ∀ ts : List Token, (∀ t ∈ ts, emb.find? (fun p => p.1 == t) = none) →
      ts.foldl (fun a t => vdiv (vadd a (storeGet emb t (zeros D))) c) (zeros D)
        = zeros D
  | [], _ => rfl
  | t :: ts, h => by
    simp only [List.foldl_cons]
    rw [storeGet_absent emb t (h t (List.mem_cons_self t ts)),
      vadd_zeros_zeros, vdiv_zeros]
    exact foldl_unknown emb c ts (fun u hu => h u (List.mem_cons_of_mem t hu))

/-- Claim C6: a token absent from the embedding store never raises an error
— the lookup `en_embeddings.get(token, np.zeros(300))` yields the zero
vector, a zero contribution — and a document all of whose tokens are
unknown encodes to the (well-defined) zero vector of dimension `D`. -/
theorem encode_unknown_tokens (emb : EmbStore) (post : List Token)
    (h : ∀ t ∈ post, emb.find? (fun p => p.1 == t) = none) :
    (∀ t ∈ post, storeGet emb t (zeros D) = zeros D) ∧
      compute_doc_embedding emb post = zeros D := by
  constructor
  · exact fun t ht => storeGet_absent emb t (h t ht)
  · exact foldl_unknown emb ((post.length : ℚ)) post h

/-- Claim C6 witness: a two-token document, both tokens absent from a
concrete one-entry store. -/
theorem encode_unknown_tokens_witness :
    (∀ t ∈ (["a", "b"] : List Token),
        ([("x", [(1 : ℚ)])] : EmbStore).find? (fun p => p.1 == t) = none) ∧
      ((∀ t ∈ (["a", "b"] : List Token),
          storeGet [("x", [(1 : ℚ)])] t (zeros D) = zeros D) ∧
        compute_doc_embedding [("x", [(1 : ℚ)])] ["a", "b"] = zeros D) :=
  ⟨by decide, encode_unknown_tokens [("x", [(1 : ℚ)])] ["a", "b"] (by decide)⟩

/-! ### Claim C1: the divisor of the running sum -/

/-- A store binding the single token `"a"` to the all-ones vector. -/
def embC1 : EmbStore := [("a", List.replicate D 1)]

theorem string_a_ne_b : (("a" : String) = "b") = False := by simp

theorem compute_embC1_value :
    compute_doc_embedding embC1 ["a", "b"] = List.replicate D ((1 : ℚ)/4) := by
  norm_num [compute_doc_embedding, storeGet, embC1, zeros, vadd_replicate,
    vdiv_replicate, string_a_ne_b]

theorem encode_claimed_embC1_value :
    encode_claimed embC1 ["a", "b"] = List.replicate D ((1 : ℚ)/2) := by
  norm_num [encode_claimed, storeGet, embC1, zeros, vadd_replicate,
    vdiv_replicate, string_a_ne_b]

/-- Claim C1 counterexample: on the two-token document `["a", "b"]` with
only `"a"` known (all-ones embedding), the code divides by `len(post) = 2`
at every step and yields the all-`1/4` vector, while the claim's
divide-by-tokens-processed-so-far algorithm yields the all-`1/2` vector. -/
theorem encode_sofar_counterexample :
    compute_doc_embedding embC1 ["a", "b"] ≠ encode_claimed embC1 ["a", "b"] := by
  rw [compute_embC1_value, encode_claimed_embC1_value]
  intro h
  have h2 := congrArg (fun l => l.getD 0 0) h
  norm_num [D] at h2

/-- Claim C1 (amended): for every non-empty document, `compute_doc_embedding`
iterates over tokens in document order, adds each present token's embedding
to the running sum, and after each addition divides the running sum by the
TOTAL number of tokens `len(post)` (not by the number processed so far);
hence the final value is the decayed sum in which the token at distance `m`
from the end contributes its embedding divided by `len(post) ^ (m + 1)`. -/
theorem encode_decay_amended (emb : EmbStore) (post : List Token)
    (hemb : ∀ p ∈ emb, (p.2 : Vec).length = D) (_hpost : post ≠ []) :
    compute_doc_embedding emb post
      = decayedSumFrom emb ((post.length : ℚ)) post := by
  unfold compute_doc_embedding
  rw [foldl_div_closed emb hemb _ post (zeros D) (zeros_length D), vdiv_zeros]
  have h := decayedSumFrom_length emb hemb ((post.length : ℚ)) post
  rw [← h, vadd_zeros_left]

/-- Claim C1 (amended) witness: instantiated on the store `embC1` and the
document `["a", "b"]`. -/
theorem encode_decay_amended_witness :
    (∀ p ∈ embC1, (p.2 : Vec).length = D) ∧ (["a", "b"] : List Token) ≠ [] ∧
      compute_doc_embedding embC1 ["a", "b"]
        = decayedSumFrom embC1 (((["a", "b"] : List Token).length : ℚ)) ["a", "b"] :=
  ⟨by simp [embC1], by simp,
    encode_decay_amended embC1 ["a", "b"] (by simp [embC1]) (by simp)⟩

/-! ### Ranking lemmas -/

theorem argsortLe_total (scores : List ℚ) :
    ∀ i j, argsortLe scores i j ∨ argsortLe scores j i := by
  intro i j
  rcases lt_trichotomy (scoreAt scores i) (scoreAt scores j) with h | h | h
  · exact Or.inl (Or.inl h)
  · rcases Nat.le_total i j with hij | hij
    · exact Or.inl (Or.inr ⟨h, hij⟩)
    · exact Or.inr (Or.inr ⟨h.symm, hij⟩)
  · exact Or.inr (Or.inl h)

theorem argsortLe_trans (scores : List ℚ) :
    ∀ i j l, argsortLe scores i j → argsortLe scores j l → argsortLe scores i l := by
  intro i j l hij hjl
  rcases hij with h1 | ⟨h1, h1b⟩ <;> rcases hjl with h2 | ⟨h2, h2b⟩
  · exact Or.inl (h1.trans h2)
  · exact Or.inl (h2 ▸ h1)
  · exact Or.inl (h1 ▸ h2)
  · exact Or.inr ⟨h1.trans h2, h1b.trans h2b⟩

theorem argsort_sorted (scores : List ℚ) :
    (argsort scores).Pairwise (argsortLe scores) := by
  haveI : IsTotal Nat (argsortLe scores) := ⟨argsortLe_total scores⟩
  haveI : IsTrans Nat (argsortLe scores) :=
    ⟨fun a b c => argsortLe_trans scores a b c⟩
  exact List.sorted_insertionSort (argsortLe scores) (List.range scores.length)

theorem argsort_nodup (scores : List ℚ) : (argsort scores).Nodup :=
  (List.perm_insertionSort (argsortLe scores) (List.range scores.length)).nodup_iff.mpr
    (List.nodup_range scores.length)

theorem argsort_length (scores : List ℚ) :
    (argsort scores).length = scores.length := by
  unfold argsort
  rw [(List.perm_insertionSort (argsortLe scores) (List.range scores.length)).length_eq,
    List.length_range]

/-- The stable ascending argsort is strictly sorted by the lexicographic
order (score, then original index). -/
theorem argsort_strict (scores : List ℚ) :
    (argsort scores).Pairwise (fun i j =>
      scoreAt scores i < scoreAt scores j ∨
        (scoreAt scores i = scoreAt scores j ∧ i < j)) := by
  refine ((argsort_sorted scores).and (argsort_nodup scores)).imp ?_
  intro i j h
  rcases h with ⟨hle | ⟨heq, hle⟩, hne⟩
  · exact Or.inl hle
  · exact Or.inr ⟨heq, lt_of_le_of_ne hle hne⟩

/-- The result of `np.argsort(scores)[-k:][::-1]` is pairwise ordered by
strictly descending (score, index): earlier entries have a larger score,
or an equal score and a larger original index. -/
theorem top_indices_pairwise (scores : List ℚ) (k : Int) :
    (top_indices scores k).Pairwise (fun i j =>
      scoreAt scores j < scoreAt scores i ∨
        (scoreAt scores i = scoreAt scores j ∧ j < i)) := by
  unfold top_indices
  rw [List.pairwise_reverse]
  have hdrop : ∃ m, pySliceFrom (argsort scores) (-k) = (argsort scores).drop m := by
    unfold pySliceFrom
    split
    · exact ⟨_, rfl⟩
    · exact ⟨_, rfl⟩
  obtain ⟨m, hm⟩ := hdrop
  rw [hm]
  refine ((argsort_strict scores).sublist (List.drop_sublist m _)).imp ?_
  intro i j h
  rcases h with hlt | ⟨heq, hlt⟩
  · exact Or.inl hlt
  · exact Or.inr ⟨heq.symm, hlt⟩

theorem cosine_length (sqrtQ : ℚ → ℚ) (matrix : List Vec) (q : Vec) :
    (cosine_similarity sqrtQ matrix q).length = matrix.length := by
  simp [cosine_similarity]

/-! ### Claim C2: ranking order and tie-break -/

/-- The score array of the C2 counterexample: a corpus of two identical
zero rows, queried with the zero vector — both cosine scores are 0 by the
spec's zero-norm rule, for any square-root function. -/
def tieScores : List ℚ := cosine_similarity (fun x => x) [[0], [0]] [0]

/-- Claim C2 counterexample: with two equal-score rows (scores `[0, 0]`)
and `k = 2`, the ranked sequence is `[1, 0]` — the HIGHER original index
comes first on a tie (ascending argsort is reversed by `[::-1]`), so the
claimed lower-index-first tie-break is violated. -/
theorem rank_tie_counterexample :
    tieScores = [0, 0] ∧ top_indices tieScores 2 = [1, 0] ∧
      ¬ (top_indices tieScores 2).Pairwise (fun i j =>
          scoreAt tieScores j < scoreAt tieScores i ∨
            (scoreAt tieScores i = scoreAt tieScores j ∧ i < j)) := by
  have hs : tieScores = [0, 0] := by
    norm_num [tieScores, cosine_similarity, dot]
  have ht : top_indices tieScores 2 = [1, 0] := by
    norm_num [hs, top_indices, argsort, scoreAt, argsortLe, pySliceFrom,
      List.insertionSort, List.orderedInsert]
  refine ⟨hs, ht, ?_⟩
  rw [ht]
  intro hpw
  rcases List.pairwise_cons.mp hpw with ⟨hrel, _⟩
  rcases hrel 0 (List.mem_singleton_self 0) with hlt | ⟨_, hlt⟩
  · rw [hs] at hlt
    norm_num [scoreAt] at hlt
  · exact Nat.not_lt_zero 1 hlt

/-- Claim C2 (amended): for every corpus matrix, query vector and positive
`k`, the ranked result sequence is ordered by non-increasing similarity
score, and whenever two entries have equal scores the entry with the
HIGHER original document index appears first (descending index within
ties), under the stable-argsort model of `np.argsort`. -/
theorem rank_order_amended (sqrtQ : ℚ → ℚ) (matrix : List Vec) (q : Vec)
    (k : Int) (_hk : 0 < k) :
    (top_indices (cosine_similarity sqrtQ matrix q) k).Pairwise (fun i j =>
      scoreAt (cosine_similarity sqrtQ matrix q) j
          < scoreAt (cosine_similarity sqrtQ matrix q) i ∨
        (scoreAt (cosine_similarity sqrtQ matrix q) i
            = scoreAt (cosine_similarity sqrtQ matrix q) j ∧ j < i)) :=
  top_indices_pairwise (cosine_similarity sqrtQ matrix q) k

/-- Claim C2 (amended) witness: instantiated on the two-zero-row corpus
with `k = 2`. -/
theorem rank_order_amended_witness :
    (0 : Int) < 2 ∧
      (top_indices (cosine_similarity (fun x => x) [[0], [0]] [0]) 2).Pairwise
        (fun i j =>
          scoreAt (cosine_similarity (fun x => x) [[0], [0]] [0]) j
              < scoreAt (cosine_similarity (fun x => x) [[0], [0]] [0]) i ∨
            (scoreAt (cosine_similarity (fun x => x) [[0], [0]] [0]) i
                = scoreAt (cosine_similarity (fun x => x) [[0], [0]] [0]) j ∧
              j < i)) :=
  ⟨by norm_num, rank_order_amended (fun x => x) [[0], [0]] [0] 2 (by norm_num)⟩

/-! ### Claim C7: result length for positive k -/

/-- Claim C7: for every corpus matrix with `N` rows, query vector, and
positive integer `k`, the ranking returns exactly `min(k, N)` entries; in
particular `k ≥ N` yields exactly `N` entries and never a failure. -/
theorem rank_length_min (sqrtQ : ℚ → ℚ) (matrix : List Vec) (q : Vec)
    (k : Int) (hk : 0 < k) :
    (top_indices (cosine_similarity sqrtQ matrix q) k).length
      = min k.toNat matrix.length := by
  unfold top_indices pySliceFrom
  rw [if_pos (by omega : -k < 0)]
  rw [List.length_reverse, List.length_drop, argsort_length, cosine_length]
  have hkk : (- -k).toNat = k.toNat := by omega
  rw [hkk]
  omega

/-- Claim C7 witness: `k = 5` over a 2-row corpus returns `min 5 2 = 2`
entries. -/
theorem rank_length_min_witness :
    (0 : Int) < 5 ∧
      (top_indices (cosine_similarity (fun x => x) [[1], [2]] [1]) 5).length
        = min (5 : Int).toNat ([[1], [2]] : List Vec).length :=
  ⟨by norm_num, rank_length_min (fun x => x) [[1], [2]] [1] 5 (by norm_num)⟩

/-! ### Claim C4: non-positive k -/

/-- The score array of the C4 counterexample: rows `[1]` and `[2]` queried
with `[1]` (scores `1` and `1/2` under the identity square root). -/
def c4Scores : List ℚ := cosine_similarity (fun x => x) [[1], [2]] [1]

/-- Claim C4 counterexample: with `k = 0` the slice `[-0:]` is the whole
array, so the code silently returns ALL rows (here `[0, 1]`, non-empty) —
and with `k = -1` it still returns a result (`[0]`); neither fails with a
validation error as the claim requires. -/
theorem rank_nonpositive_k_counterexample :
    top_indices c4Scores 0 = [0, 1] ∧ top_indices c4Scores (-1) = [0] := by
  have hs : c4Scores = [1, 1/2] := by
    norm_num [c4Scores, cosine_similarity, dot]
  constructor
  · norm_num [hs, top_indices, argsort, scoreAt, argsortLe, pySliceFrom,
      List.insertionSort, List.orderedInsert]
  · norm_num [hs, top_indices, argsort, scoreAt, argsortLe, pySliceFrom,
      List.insertionSort, List.orderedInsert]

/-- Claim C4 (amended): calling the ranking with `k ≤ 0` does not fail and
does not necessarily return an empty result: the slice `[-k:]` keeps the
last `N - |k|` entries, so `k = 0` silently returns all `N` rows and
`k < 0` silently returns the `N - |k|` highest-scoring rows. -/
theorem rank_nonpositive_k_amended (sqrtQ : ℚ → ℚ) (matrix : List Vec)
    (q : Vec) (k : Int) (hk : k ≤ 0) :
    (top_indices (cosine_similarity sqrtQ matrix q) k).length
      = matrix.length - (-k).toNat := by
  unfold top_indices pySliceFrom
  rw [if_neg (by omega : ¬ -k < 0)]
  rw [List.length_reverse, List.length_drop, argsort_length, cosine_length]

/-- Claim C4 (amended) witness: `k = 0` over the 2-row corpus returns all
`2 - 0 = 2` entries. -/
theorem rank_nonpositive_k_amended_witness :
    (0 : Int) ≤ 0 ∧
      (top_indices (cosine_similarity (fun x => x) [[1], [2]] [1]) 0).length
        = ([[1], [2]] : List Vec).length - (-(0 : Int)).toNat :=
  ⟨le_refl 0, rank_nonpositive_k_amended (fun x => x) [[1], [2]] [1] 0 (le_refl 0)⟩

/-! ### Claim C3: the empty corpus -/

/-- Claim C3 counterexample: on zero documents `vectorize_posts` does NOT
return a valid zero-row matrix — the Python local `document_vec_matrix` is
only assigned inside the loop, so the `return` raises `UnboundLocalError`
(modelled as `none`). -/
theorem empty_corpus_counterexample :
    vectorize_posts ([] : List (List Token)) ([] : EmbStore) = none := rfl

/-- Claim C3 (amended): zero documents make `vectorize_posts` fail with an
unbound-local error instead of producing a zero-row matrix; the ranking
loop itself, given a zero-row matrix, does return an empty result list for
every query and every `k`. -/
theorem empty_corpus_amended (en_embeddings : EmbStore) (sqrtQ : ℚ → ℚ)
    (q : Vec) (k : Int) :
    vectorize_posts [] en_embeddings = none ∧
      top_indices (cosine_similarity sqrtQ [] q) k = [] := by
  constructor
  · rfl
  · simp [top_indices, pySliceFrom, argsort, cosine_similarity]

/-! ### Dict lemmas -/

theorem find?_map_overwrite {κ : Type} {α : Type} [BEq κ] [LawfulBEq κ] (k : κ) (v : α) :
    ∀ d : List (κ × α), d.any (fun p => p.1 == k) = true →
      (d.map (fun p => if p.1 == k then (k, v) else p)).find? (fun p => p.1 == k)
        = some (k, v)
  | [], h => by simp at h
  | p :: d, h => by
    by_cases hp : p.1 == k
    · simp [List.find?, hp]
    · have h2 : d.any (fun p => p.1 == k) = true := by
        simp only [List.any_cons, hp, Bool.false_or] at h
        exact h
      rw [List.map_cons, if_neg hp,
        List.find?_cons_of_neg _ (by simpa using hp)]
      exact find?_map_overwrite k v d h2

/-- Python dict semantics: after `d[k] = v`, looking up `k` yields `v`. -/
theorem dictGet?_dictSet {κ : Type} {α : Type} [BEq κ] [LawfulBEq κ]
    (d : List (κ × α)) (k : κ) (v : α) :
    dictGet? (dictSet d k v) k = some v := by
  unfold dictSet dictGet?
  by_cases h : d.any (fun p => p.1 == k)
  · rw [if_pos h, find?_map_overwrite k v d h]
    rfl
  · rw [if_neg h, List.find?_append]
    have hnone : d.find? (fun p => p.1 == k) = none := by
      rw [List.find?_eq_none]
      intro p hp hx
      exact h (List.any_eq_true.mpr ⟨p, hp, hx⟩)
    rw [hnone]
    simp [List.find?]

/-- `d[k] = v` adds no key other than `k`. -/
theorem dictSet_keys_subset {κ : Type} {α : Type} [BEq κ] [LawfulBEq κ]
    (d : List (κ × α)) (k : κ) (v : α) :
    ∀ key ∈ (dictSet d k v).map Prod.fst, key ∈ d.map Prod.fst ∨ key = k := by
  intro key hkey
  unfold dictSet at hkey
  split at hkey
  · simp only [List.map_map, List.mem_map, Function.comp] at hkey
    obtain ⟨p, hp, hval⟩ := hkey
    by_cases hpk : p.1 == k
    · right
      rw [← hval]
      simp [hpk]
    · left
      rw [← hval]
      simp only [if_neg hpk]
      exact List.mem_map_of_mem Prod.fst hp
  · rw [List.map_append, List.mem_append] at hkey
    rcases hkey with hkey | hkey
    · exact Or.inl hkey
    · right
      simpa using hkey

/-- When all existing keys differ from `k`, `d[k] = v` appends `(k, v)`. -/
theorem dictSet_fresh {κ : Type} {α : Type} [BEq κ] [LawfulBEq κ]
    (d : List (κ × α)) (k : κ) (v : α) (h : ∀ p ∈ d, ¬ p.1 = k) :
    dictSet d k v = d ++ [(k, v)] := by
  have hany : d.any (fun p => p.1 == k) = false := by
    rw [List.any_eq_false]
    intro p hp
    simp only [beq_iff_eq]
    exact h p hp
  unfold dictSet
  rw [hany]
  simp

/-! ### Claim C8: query labels and overwriting -/

theorem query_keys_from (sqrtQ : ℚ → ℚ) (en_embeddings : EmbStore)
    (matrix : List Vec) (ls_posts : List String) (k : Int) :
    ∀ (queries : List (List Token))
      (acc : List (String × List (Nat × Option String × ℚ))),
      ∀ key ∈ (queries.foldl (queryStep sqrtQ en_embeddings matrix ls_posts k)
          acc).map Prod.fst,
        key ∈ acc.map Prod.fst ∨ ∃ q2 ∈ queries, key = String.intercalate " " q2
  | [], acc => fun key hkey => Or.inl hkey
  | q0 :: rest, acc => by
    intro key hkey
    rw [List.foldl_cons] at hkey
    rcases query_keys_from sqrtQ en_embeddings matrix ls_posts k rest _ key hkey
        with hacc | ⟨q2, hq2, hk⟩
    · unfold queryStep at hacc
      rcases dictSet_keys_subset _ _ _ key hacc with hacc1 | hk
      · rcases dictSet_keys_subset _ _ _ key hacc1 with hacc0 | hk
        · exact Or.inl hacc0
        · exact Or.inr ⟨q0, List.mem_cons_self q0 rest, hk⟩
      · exact Or.inr ⟨q0, List.mem_cons_self q0 rest, hk⟩
    · exact Or.inr ⟨q2, List.mem_cons_of_mem q0 hq2, hk⟩

/-- Claim C8: each processed query's key in `query_posts_similarities` is
its tokens joined by a single space, and when a query with the same token
sequence occurs again later, the later query's result list overwrites the
earlier one under that single key: after processing `qs ++ [q]`, the key
`' '.join(q)` holds exactly the top-posts of the final occurrence `q`, and
every key of the mapping is the space-join of some processed query. -/
theorem query_label_overwrite (sqrtQ : ℚ → ℚ) (en_embeddings : EmbStore)
    (matrix : List Vec) (ls_posts : List String) (k : Int)
    (qs : List (List Token)) (q : List Token) :
    dictGet? (query_posts_similarities sqrtQ en_embeddings matrix ls_posts k
        (qs ++ [q])) (String.intercalate " " q)
      = some (topPostsFor sqrtQ en_embeddings matrix ls_posts k q) ∧
    ∀ key ∈ (query_posts_similarities sqrtQ en_embeddings matrix ls_posts k
        (qs ++ [q])).map Prod.fst,
      ∃ q2 ∈ qs ++ [q], key = String.intercalate " " q2 := by
  constructor
  · unfold query_posts_similarities
    rw [List.foldl_append]
    exact dictGet?_dictSet _ _ _
  · intro key hkey
    rcases query_keys_from sqrtQ en_embeddings matrix ls_posts k (qs ++ [q]) []
        key hkey with hnil | h
    · simp at hnil
    · exact h

/-! ### Claim C9: determinism of corpus building -/

/-- Claim C9: building the corpus matrix is a pure function of the document
sequence and the embedding store — two runs of `vectorize_posts` on
identical inputs produce identical (bit-identical, under exact rational
arithmetic) matrices and index maps. -/
theorem vectorize_two_runs (posts1 posts2 : List (List Token))
    (emb1 emb2 : EmbStore) (hposts : posts1 = posts2) (hemb : emb1 = emb2) :
    vectorize_posts posts1 emb1 = vectorize_posts posts2 emb2 := by
  rw [hposts, hemb]

/-- Claim C9 witness: two runs on the one-document corpus `[["a"]]` with
the store `embC1`. -/
theorem vectorize_two_runs_witness :
    ([["a"]] : List (List Token)) = [["a"]] ∧ embC1 = embC1 ∧
      vectorize_posts [["a"]] embC1 = vectorize_posts [["a"]] embC1 :=
  ⟨rfl, rfl, vectorize_two_runs [["a"]] [["a"]] embC1 embC1 rfl rfl⟩

/-! ### Claim C10: matrix/dictionary consistency -/

theorem vectorizeGo_run (emb : EmbStore) :
    ∀ (posts : List (List Token)) (i : Nat) (vecl : List Vec)
      (dict : List (Nat × Vec)) (m : Option (List Vec)),
      (∀ p ∈ dict, p.1 < i) →
      vectorizeGo emb posts i vecl dict m
        = ((if posts.isEmpty then m
            else some (vecl ++ posts.map (compute_doc_embedding emb))),
          dict ++ (posts.map (compute_doc_embedding emb)).enumFrom i)
  | [], i, vecl, dict, m, _ => by simp [vectorizeGo]
  | post :: rest, i, vecl, dict, m, hdict => by
    show vectorizeGo emb rest (i + 1)
        (vecl ++ [compute_doc_embedding emb post])
        (dictSet dict i (compute_doc_embedding emb post))
        (some (vecl ++ [compute_doc_embedding emb post])) = _
    rw [dictSet_fresh dict i (compute_doc_embedding emb post)
      (fun p hp => Nat.ne_of_lt (hdict p hp))]
    rw [vectorizeGo_run emb rest (i + 1) _ _ _ ?fresh]
    case fresh =>
      intro p hp
      rcases List.mem_append.mp hp with hp | hp
      · exact Nat.lt_succ_of_lt (hdict p hp)
      · simp only [List.mem_singleton] at hp
        rw [hp]
        exact Nat.lt_succ_self i
    cases rest with
    | nil => simp [List.enumFrom]
    | cons r rs => simp [List.enumFrom, List.append_assoc]

/-- On a non-empty corpus, `vectorize_posts` returns the row list of
per-document embeddings together with the dictionary enumerating it. -/
theorem vectorize_posts_run (posts : List (List Token)) (emb : EmbStore)
    (h : posts ≠ []) :
    vectorize_posts posts emb
      = some (posts.map (compute_doc_embedding emb),
          (posts.map (compute_doc_embedding emb)).enumFrom 0) := by
  unfold vectorize_posts
  rw [vectorizeGo_run emb posts 0 [] [] none (by simp)]
  cases posts with
  | nil => exact absurd rfl h
  | cons p rest => simp

theorem dictGet?_enumFrom {α : Type} :
    ∀ (l : List α) (j i : Nat),
      dictGet? (l.enumFrom j) i = if j ≤ i then l[i - j]? else none
  | [], j, i => by
    simp [dictGet?, List.enumFrom]
  | x :: l, j, i => by
    by_cases hji : j = i
    · subst hji
      simp [dictGet?, List.enumFrom, List.find?]
    · have hstep : dictGet? ((x :: l).enumFrom j) i
          = dictGet? (l.enumFrom (j + 1)) i := by
        show dictGet? ((j, x) :: l.enumFrom (j + 1)) i = _
        unfold dictGet?
        rw [List.find?_cons_of_neg _ (by simp [hji])]
      rw [hstep, dictGet?_enumFrom l (j + 1) i]
      by_cases h1 : j + 1 ≤ i
      · rw [if_pos h1, if_pos (by omega)]
        have hidx : i - j = (i - (j + 1)) + 1 := by omega
        rw [hidx, List.getElem?_cons_succ]
      · rw [if_neg h1, if_neg (by omega)]

/-- Claim C10: on every non-empty corpus the two return values of
`vectorize_posts` stay consistent — the matrix has one row per document,
`ind2Doc_dict` has exactly the keys `0 .. N-1` in order, and the entry at
every index `i` equals row `i` of the matrix. -/
theorem vectorize_matrix_dict_consistent (emb : EmbStore)
    (posts : List (List Token)) (h : posts ≠ []) :
    ∃ mat dict, vectorize_posts posts emb = some (mat, dict) ∧
      mat.length = posts.length ∧
      dict.map Prod.fst = List.range posts.length ∧
      ∀ i : Nat, dictGet? dict i = mat[i]? := by
  refine ⟨_, _, vectorize_posts_run posts emb h, by simp, ?_, ?_⟩
  · rw [show (posts.map (compute_doc_embedding emb)).enumFrom 0
        = (posts.map (compute_doc_embedding emb)).enum from rfl,
      List.enum_map_fst, List.length_map]
  · intro i
    rw [dictGet?_enumFrom]
    simp

/-- Claim C10 witness: the one-document corpus `[["a"]]` with store `embC1`. -/
theorem vectorize_matrix_dict_consistent_witness :
    ([["a"]] : List (List Token)) ≠ [] ∧
      ∃ mat dict, vectorize_posts [["a"]] embC1 = some (mat, dict) ∧
        mat.length = ([["a"]] : List (List Token)).length ∧
        dict.map Prod.fst = List.range ([["a"]] : List (List Token)).length ∧
        ∀ i : Nat, dictGet? dict i = mat[i]? :=
  ⟨by simp, vectorize_matrix_dict_consistent embC1 [["a"]] (by simp)⟩

end SemSearch
